import Mathlib

/-!
Verification development for the family-planning data transformation pipeline
(`backend/services/data_cleaning/transform_extracted_data.py`).

Dataframes are embedded as lists of records, one structure per schema stage.
Numeric `value` columns are modelled over `ℚ` (exact arithmetic standing in for
the float column).  Every polars operation used by the pipeline is translated
operation-by-operation:

* `join(..., how="inner")` — nested flat-map over matching rows;
* `replace_strict(map, default=d)` — association-list lookup with default;
* `str.contains(pat)` (with a literal pattern) — substring test on the text;
* `group_by(keys).agg(col("value").sum())` — first-occurrence key
  deduplication paired with a filtered sum per key;
* `sort(keys)` — insertion sort by the lexicographic order on the key columns
  (the key sets that get sorted are duplicate-free, so any stable or unstable
  comparison sort produces this same list);
* `pivot(on=..., index=..., values=..., aggregate_function=None)` — one output
  row per input row, guarded by a duplicate-group check: polars raises
  `ComputeError` when several rows fall in one (index, on) group and no
  aggregate function is given, which is modelled by returning `none`;
* `unpivot(on=[a, b], index=...)` — the `a`-block followed by the `b`-block,
  each in row order.
-/

namespace FP

/-! ## Executable string ordering and substring search

Char-list level comparisons (code-point order, which coincides with the byte
order polars uses on the ASCII data of this pipeline), written structurally so
the kernel can evaluate them on concrete inputs. -/

/-- Strict lexicographic order on char lists. -/
def charsLTb : List Char → List Char → Bool
  | [], [] => false
  | [], _ :: _ => true
  | _ :: _, [] => false
  | a :: as, b :: bs => decide (a < b) || (decide (a = b) && charsLTb as bs)

/-- Strict lexicographic order on strings (polars ascending sort order). -/
def strLTb (a b : String) : Bool := charsLTb a.data b.data

/-- Lexicographic less-or-equal on lists of sort-key columns. -/
def strsLEb : List String → List String → Bool
  | [], _ => true
  | _ :: _, [] => false
  | a :: as, b :: bs => strLTb a b || (decide (a = b) && strsLEb as bs)

/-- Boolean prefix test on char lists. -/
def charsIsPrefixb : List Char → List Char → Bool
  | [], _ => true
  | _ :: _, [] => false
  | a :: as, b :: bs => decide (a = b) && charsIsPrefixb as bs

/-- Boolean substring (infix) test: does `pat` occur inside the second list? -/
def charsContainsb (pat : List Char) : List Char → Bool
  | [] => charsIsPrefixb pat []
  | c :: cs => charsIsPrefixb pat (c :: cs) || charsContainsb pat cs

/-- Embedding of `pl.col(col).str.contains(pat)` for the literal patterns
"711" and "747" used by the pipeline (a regex without metacharacters matches
exactly its own text as a substring). -/
def containsSub (s pat : String) : Bool := charsContainsb pat.data s.data

/-- Embedding of `str.to_titlecase`: the first alphabetic character of each
word is uppercased, subsequent alphabetic characters are lowercased. -/
def titlecaseChars : Bool → List Char → List Char
  | _, [] => []
  | prevAlpha, c :: cs =>
    if c.isAlpha then
      (if prevAlpha then c.toLower else c.toUpper) :: titlecaseChars true cs
    else
      c :: titlecaseChars false cs

/-- Embedding of `pl.col(col).str.to_titlecase()`. -/
def strToTitlecase (s : String) : String := ⟨titlecaseChars false s.data⟩

/-! ## Reference catalogs (static configuration of the pipeline class) -/

/-- `FamilyPlanningDataTransformationPipeline.ANALYTIC_ID_MAP`, flattened
ID -> short name, in source order. -/
def ANALYTIC_ID_MAP : List (String × String) := [
  ("dl4JcBnxu0X", "POPs"), ("uHM6lzLXDBd", "POPs"),
  ("tfPZ6sGgh4q", "Non-Hormonal IUCD"), ("hRktPfPEegP", "Non-Hormonal IUCD"),
  ("cV4qoKSYiBs", "Male Condoms"), ("AVDzuypqGt9", "Male Condoms"),
  ("APbXNRovb5w", "Levoplant"),
  ("CJdFYcZ1zOq", "Implanon"), ("XgJfT71Unkn", "Implanon"),
  ("MsS41X1GEFr", "Jadelle"),
  ("zXbxl6y97mi", "Hormonal IUCD"), ("Wv02gixbRpT", "Hormonal IUCD"),
  ("Fxb4iVJdw2g", "Female Condoms"), ("AR7RhdC90IV", "Female Condoms"),
  ("paDQStynGGD", "EC Pills"), ("qaBPR9wbWku", "EC Pills"),
  ("NMCIxSeGpS3", "DMPA-SC"), ("hXa1xyUMfTa", "DMPA-SC"),
  ("PgQIx7Hq1kp", "DMPA-IM"), ("J6qnTev1LXw", "DMPA-IM"),
  ("fYCo4peO0yE", "Cycle Beads"), ("bGGT0F7iRxt", "Cycle Beads"),
  ("BQmcVE8fex4", "COCs"), ("hH9gmEmEhH4", "COCs"),
  ("TUHzoPGLM3t", "2 Rod")]

/-- `FamilyPlanningDataTransformationPipeline.SERVICE_ADJUSTMENTS`
(1.25, 0.5, 10.0, 10.0 as exact rationals). -/
def SERVICE_ADJUSTMENTS : List (String × ℚ) := [
  ("COCs", 5/4),
  ("POPs", 1/2),
  ("Female Condoms", 10),
  ("Male Condoms", 10)]

/-- Embedding of `pl.col("analytic_id").replace_strict(ANALYTIC_ID_MAP,
default="Unknown Product")` at a single cell. -/
def replaceStrictProduct (analytic_id : String) : String :=
  (ANALYTIC_ID_MAP.lookup analytic_id).getD "Unknown Product"

/-- Embedding of `pl.col("analytic_short_name").replace_strict(
SERVICE_ADJUSTMENTS, default=1.0)` at a single cell. -/
def serviceAdjustment (analytic_short_name : String) : ℚ :=
  (SERVICE_ADJUSTMENTS.lookup analytic_short_name).getD 1

/-! ## Row schemas of the successive dataframes -/

/-- One row of `raw_fp` (`SELECT analytic as analytic_id, org_unit, period,
value FROM raw_fp_data`). -/
structure RawRow where
  analytic_id : String
  org_unit : String
  period : String
  value : ℚ
deriving DecidableEq, Repr

/-- One row of `org_units` (`SELECT facility_id as org_unit, county_name FROM
organisation_units`). -/
structure OrgRow where
  org_unit : String
  county_name : String
deriving DecidableEq, Repr

/-- One row of `elements` (`SELECT id as analytic_id, name as analytic_name
FROM data_elements`). -/
structure ElemRow where
  analytic_id : String
  analytic_name : String
deriving DecidableEq, Repr

/-- One row of `joined_df`: the two inner joins followed by
`.drop("org_unit")`. -/
structure JoinedRow where
  analytic_id : String
  period : String
  value : ℚ
  county_name : String
  analytic_name : String
deriving DecidableEq, Repr

/-- One row of `processed_df`: `joined_df` plus the `analytic_short_name` and
`method` columns, with the adjusted `value`. -/
structure ProcessedRow where
  analytic_id : String
  period : String
  value : ℚ
  county_name : String
  analytic_name : String
  analytic_short_name : String
  method : String
deriving DecidableEq, Repr

/-- One row of the aggregated frames (`county_df`, `national_df`, the merged
frame and the final frame): columns `analytic, method, org_unit, period,
value` in source order. -/
structure AggRow where
  analytic : String
  method : String
  org_unit : String
  period : String
  value : ℚ
deriving DecidableEq, Repr

/-! ## Step 1 of `_apply_transformations`: the inner joins -/

/-- Embedding of
`raw_fp.join(org_units, on="org_unit", how="inner")
       .join(elements, on="analytic_id", how="inner").drop("org_unit")`:
each raw observation is paired with every matching organisation row and every
matching element row; observations without a match are dropped. -/
def joinData (raw_fp : List RawRow) (org_units : List OrgRow)
    (elements : List ElemRow) : List JoinedRow :=
  raw_fp.flatMap fun r =>
    (org_units.filter fun o => decide (o.org_unit = r.org_unit)).flatMap fun o =>
      (elements.filter fun e => decide (e.analytic_id = r.analytic_id)).map fun e =>
        { analytic_id := r.analytic_id, period := r.period, value := r.value,
          county_name := o.county_name, analytic_name := e.analytic_name }

/-! ## Steps 2 and 3: short names, method classification, value adjustment -/

/-- The `method` column expression:
`when(col("analytic_name").str.contains("711")).then(lit("Service"))
 .when(col("analytic_name").str.contains("747")).then(lit("Consumption"))
 .otherwise(lit("Unknown Method"))`. -/
def methodOf (analytic_name : String) : String :=
  if containsSub analytic_name "711" then "Service"
  else if containsSub analytic_name "747" then "Consumption"
  else "Unknown Method"

/-- Per-row embedding of the two `with_columns` blocks of
`_apply_transformations`: add `analytic_short_name`, add `method`, and
multiply `value` by the service adjustment exactly when `method = "Service"`. -/
def processRow (j : JoinedRow) : ProcessedRow :=
  let short := replaceStrictProduct j.analytic_id
  let m := methodOf j.analytic_name
  { analytic_id := j.analytic_id, period := j.period,
    value := if m = "Service" then j.value * serviceAdjustment short else j.value,
    county_name := j.county_name, analytic_name := j.analytic_name,
    analytic_short_name := short, method := m }

/-! ## Steps 4 and 5: group-by aggregation and sort -/

/-- First-occurrence deduplication with an accumulator of already-seen keys
(the distinct group keys of a `group_by`, in order of first appearance). -/
def dedupFirstAux {K : Type} [DecidableEq K] (seen : List K) : List K → List K
  | [] => []
  | k :: ks =>
    if k ∈ seen then dedupFirstAux seen ks else k :: dedupFirstAux (k :: seen) ks

/-- Distinct elements of a list, keeping first occurrences in order. -/
def dedupFirst {K : Type} [DecidableEq K] (l : List K) : List K :=
  dedupFirstAux [] l

/-- Grouping key of the county aggregation, after the
`rename(analytic_short_name -> analytic, county_name -> org_unit)`:
`group_by(["analytic", "method", "org_unit", "period"])`. -/
def countyKey (p : ProcessedRow) : String × String × String × String :=
  (p.analytic_short_name, p.method, p.county_name, p.period)

/-- Embedding of
`.group_by(["analytic", "method", "org_unit", "period"]).agg(col("value").sum())`:
one output row per distinct key, whose value is the sum of the group. -/
def countyAggregate (rows : List ProcessedRow) : List AggRow :=
  (dedupFirst (rows.map countyKey)).map fun k =>
    { analytic := k.1, method := k.2.1, org_unit := k.2.2.1, period := k.2.2.2,
      value := ((rows.filter fun p => decide (countyKey p = k)).map fun p => p.value).sum }

/-- Sort-key columns of the final county sort:
`sort(["analytic", "method", "org_unit", "period"])`. -/
def key4 (r : AggRow) : List String := [r.analytic, r.method, r.org_unit, r.period]

/-- Sort-key columns of the sort inside the two-rod split:
`sort(["org_unit", "analytic", "period"])`. -/
def key3 (r : AggRow) : List String := [r.org_unit, r.analytic, r.period]

/-- Row comparison induced by a list of sort-key columns. -/
def rowsLE (key : AggRow → List String) (a b : AggRow) : Prop :=
  strsLEb (key a) (key b) = true

instance rowsLE.decRel (key : AggRow → List String) : DecidableRel (rowsLE key) :=
  fun a b => inferInstanceAs (Decidable (strsLEb (key a) (key b) = true))

/-- The fully processed (pre-aggregation) frame `processed_df` of
`_apply_transformations`: the joined rows with short names, methods and
adjusted values. -/
def processedRows (raw_fp : List RawRow) (org_units : List OrgRow)
    (elements : List ElemRow) : List ProcessedRow :=
  (joinData raw_fp org_units elements).map processRow

/-- `_apply_transformations`: joins, name resolution, method classification,
value adjustment, county-level aggregation and the final ascending sort. -/
def applyTransformations (raw_fp : List RawRow) (org_units : List OrgRow)
    (elements : List ElemRow) : List AggRow :=
  List.insertionSort (rowsLE key4)
    (countyAggregate (processedRows raw_fp org_units elements))

/-! ## `_generate_national_aggregates` -/

/-- Grouping key of the national aggregation:
`group_by(["analytic", "method", "period"])`. -/
def natKey (r : AggRow) : String × String × String := (r.analytic, r.method, r.period)

/-- Embedding of `_generate_national_aggregates`: re-group by
(analytic, method, period), sum values, tag `org_unit = "Kenya"`, and select
the columns back into the county column order. -/
def generateNationalAggregates (county_df : List AggRow) : List AggRow :=
  (dedupFirst (county_df.map natKey)).map fun k =>
    { analytic := k.1, method := k.2.1, org_unit := "Kenya", period := k.2.2,
      value := ((county_df.filter fun c => decide (natKey c = k)).map fun c => c.value).sum }

/-- Column list of `county_df` (group keys in order, then the aggregated
column), used to state schema-compatibility facts. -/
def countyColumns : List String := ["analytic", "method", "org_unit", "period", "value"]

/-- Column list of `national_df`, fixed by its final
`.select(["analytic", "method", "org_unit", "period", "value"])`. -/
def nationalColumns : List String := ["analytic", "method", "org_unit", "period", "value"]

/-! ## `_process_two_rod_split` -/

/-- The selection predicate `(col("method") == "Service") & (col("analytic")
== "2 Rod")`. -/
def targetRow (r : AggRow) : Bool :=
  decide (r.method = "Service") && decide (r.analytic = "2 Rod")

/-- Pivot group key: the `index` columns of
`pivot(on="analytic", index=["org_unit", "method", "period"], values="value")`
(the `on` column is constant "2 Rod" on the filtered frame). -/
def pivotKey (r : AggRow) : String × String × String := (r.org_unit, r.method, r.period)

/-- One row of the pivoted frame: the index columns plus the "2 Rod" value
column. -/
structure PivotRow where
  org_unit : String
  method : String
  period : String
  twoRod : ℚ
deriving DecidableEq, Repr

/-- Embedding of the pivot on the sorted filtered frame.  polars `pivot` with
`aggregate_function=None` raises a `ComputeError` when two rows fall into the
same (index, on) group; this is the `none` case.  Otherwise every input row is
its own group and yields one pivoted row, in input order. -/
def pivot2Rod (rows : List AggRow) : Option (List PivotRow) :=
  if (rows.map pivotKey).Nodup then
    some (rows.map fun r => ⟨r.org_unit, r.method, r.period, r.value⟩)
  else none

/-- Embedding of the `with_columns(Jadelle=..., Levoplant=...)`,
`drop("2 Rod")`, `unpivot(on=["Jadelle", "Levoplant"], ...)` and
`with_columns(analytic=col("analytic").str.to_titlecase())` chain: the Jadelle
block followed by the Levoplant block, titlecased. -/
def splitDerived (piv : List PivotRow) (jadelle_ratio : ℚ) : List AggRow :=
  ((piv.map fun p =>
      ({ analytic := "Jadelle", method := p.method, org_unit := p.org_unit,
         period := p.period, value := p.twoRod * jadelle_ratio } : AggRow))
    ++ piv.map fun p =>
      ({ analytic := "Levoplant", method := p.method, org_unit := p.org_unit,
         period := p.period, value := p.twoRod * (1 - jadelle_ratio) } : AggRow)).map
    fun r => { r with analytic := strToTitlecase r.analytic }

/-- Embedding of `_process_two_rod_split` (default `jadelle_ratio=0.8`).
Returns `none` exactly when the pivot raises on duplicate group keys. -/
def processTwoRodSplit (df : List AggRow) (jadelle_ratio : ℚ) : Option (List AggRow) :=
  let two_rod_df := df.filter targetRow
  if two_rod_df.isEmpty then some df
  else
    match pivot2Rod (List.insertionSort (rowsLE key3) two_rod_df) with
    | none => none
    | some piv =>
      some ((df.filter fun r => !(targetRow r)) ++ splitDerived piv jadelle_ratio)

/-! ## The orchestrator `run`

The response envelope `APIResponse` lives outside the pipeline module
(`backend/schemas/shared`); its fields are taken from the invocation contract
and from the keyword arguments `run` passes to its constructor:
success, message, data, trace_id. -/

/-- Response envelope returned by `run` on every path. -/
structure APIResponse where
  success : Bool
  message : String
  data : Option String
  trace_id : String
deriving DecidableEq, Repr

/-- The three datasets `_extract_data` returns. -/
structure ExtractedData where
  raw_fp : List RawRow
  org_units : List OrgRow
  elements : List ElemRow

/-- Failure message format of the `except` branch of `run`:
`f"Pipeline failed. Error: {str(e)}. Check logs for more info."`. -/
def failureMessage (e : String) : String :=
  "Pipeline failed. Error: " ++ e ++ ". Check logs for more info."

/-- Success message format of `run` (the dataframe shape is
(row count, column count)). -/
def successMessage (final_df : List AggRow) : String :=
  "Pipeline finished successfully. Final Data Shape: ("
    ++ toString final_df.length ++ ", 5)"

/-- Message of the polars `ComputeError` raised by `pivot` on duplicate
groups, the one in-model exception a transformation step can raise. -/
def pivotErrorMessage : String :=
  "found multiple elements in the same group, please specify an aggregation function"

/-- Embedding of `run`.  The extraction result and the persistence delegate
are the two external effects; each is passed in as a value (`Except.error`
models the step raising).  The second component of the result records whether
the persistence delegate was invoked.  All exceptions are caught by the
`except` branch, which builds the uniform failure response. -/
def runPipeline (extract_result : Except String ExtractedData)
    (save_result : List AggRow → Except String Unit)
    (request_trace_id : String) : APIResponse × Bool :=
  match extract_result with
  | .error e => (⟨false, failureMessage e, none, request_trace_id⟩, false)
  | .ok data =>
    let county_df := applyTransformations data.raw_fp data.org_units data.elements
    let national_df := generateNationalAggregates county_df
    let merged_df := county_df ++ national_df
    match processTwoRodSplit merged_df (4/5) with
    | none => (⟨false, failureMessage pivotErrorMessage, none, request_trace_id⟩, false)
    | some final_df =>
      match save_result final_df with
      | .error e => (⟨false, failureMessage e, none, request_trace_id⟩, true)
      | .ok _ =>
        (⟨true, successMessage final_df,
          some "Processed data saved to configured database", request_trace_id⟩, true)

/-- County aggregation followed by the merge with the national aggregates:
the frame `merged_df = pl.concat([county_df, national_df])` that `run` feeds
into `_process_two_rod_split`. -/
def mergedPipeline (raw_fp : List RawRow) (org_units : List OrgRow)
    (elements : List ElemRow) : List AggRow :=
  let county_df := applyTransformations raw_fp org_units elements
  county_df ++ generateNationalAggregates county_df

/-- Grouping key of an aggregated row, as a tuple: (product, method,
geography, period). -/
def keyQuad (r : AggRow) : String × String × String × String :=
  (r.analytic, r.method, r.org_unit, r.period)

/-- The (geography, period) pair of an aggregated row — the key the pivot of
`_process_two_rod_split` assumes unique on the filtered frame. -/
def pairKey (r : AggRow) : String × String := (r.org_unit, r.period)

/-! ## Order properties of the sort comparisons -/

theorem charsLTb_trans (as : List Char) : ∀ bs cs,
    charsLTb as bs = true → charsLTb bs cs = true → charsLTb as cs = true := by
  induction as with
  | nil =>
    intro bs cs h1 h2
    cases bs with
    | nil => simp [charsLTb] at h1
    | cons b bs' =>
      cases cs with
      | nil => simp [charsLTb] at h2
      | cons c cs' => simp [charsLTb]
  | cons a as ih =>
    intro bs cs h1 h2
    cases bs with
    | nil => simp [charsLTb] at h1
    | cons b bs' =>
      cases cs with
      | nil => simp [charsLTb] at h2
      | cons c cs' =>
        simp only [charsLTb, Bool.or_eq_true, Bool.and_eq_true,
          decide_eq_true_eq] at h1 h2 ⊢
        rcases h1 with h1 | ⟨hab, h1⟩
        · rcases h2 with h2 | ⟨hbc, h2⟩
          · exact Or.inl (lt_trans h1 h2)
          · exact Or.inl (hbc ▸ h1)
        · rcases h2 with h2 | ⟨hbc, h2⟩
          · exact Or.inl (hab ▸ h2)
          · exact Or.inr ⟨hab.trans hbc, ih _ _ h1 h2⟩

theorem charsLTb_trichot (as : List Char) : ∀ bs,
    charsLTb as bs = true ∨ as = bs ∨ charsLTb bs as = true := by
  induction as with
  | nil =>
    intro bs
    cases bs with
    | nil => exact Or.inr (Or.inl rfl)
    | cons b bs' => exact Or.inl (by simp [charsLTb])
  | cons a as ih =>
    intro bs
    cases bs with
    | nil => exact Or.inr (Or.inr (by simp [charsLTb]))
    | cons b bs' =>
      rcases lt_trichotomy a b with hab | hab | hab
      · exact Or.inl (by simp [charsLTb, hab])
      · subst hab
        rcases ih bs' with h | h | h
        · exact Or.inl (by simp [charsLTb, h])
        · exact Or.inr (Or.inl (by rw [h]))
        · exact Or.inr (Or.inr (by simp [charsLTb, h]))
      · exact Or.inr (Or.inr (by simp [charsLTb, hab]))

theorem strLTb_trans {a b c : String} (h1 : strLTb a b = true)
    (h2 : strLTb b c = true) : strLTb a c = true :=
  charsLTb_trans a.data b.data c.data h1 h2

theorem strLTb_trichot (a b : String) :
    strLTb a b = true ∨ a = b ∨ strLTb b a = true := by
  rcases charsLTb_trichot a.data b.data with h | h | h
  · exact Or.inl h
  · exact Or.inr (Or.inl (String.ext h))
  · exact Or.inr (Or.inr h)

theorem strsLEb_trans (as : List String) : ∀ bs cs,
    strsLEb as bs = true → strsLEb bs cs = true → strsLEb as cs = true := by
  induction as with
  | nil => intro bs cs h1 h2; simp [strsLEb]
  | cons a as ih =>
    intro bs cs h1 h2
    cases bs with
    | nil => simp [strsLEb] at h1
    | cons b bs' =>
      cases cs with
      | nil => simp [strsLEb] at h2
      | cons c cs' =>
        simp only [strsLEb, Bool.or_eq_true, Bool.and_eq_true,
          decide_eq_true_eq] at h1 h2 ⊢
        rcases h1 with h1 | ⟨hab, h1⟩
        · rcases h2 with h2 | ⟨hbc, h2⟩
          · exact Or.inl (strLTb_trans h1 h2)
          · exact Or.inl (hbc ▸ h1)
        · rcases h2 with h2 | ⟨hbc, h2⟩
          · exact Or.inl (hab ▸ h2)
          · exact Or.inr ⟨hab.trans hbc, ih _ _ h1 h2⟩

theorem strsLEb_total (as : List String) : ∀ bs,
    strsLEb as bs = true ∨ strsLEb bs as = true := by
  induction as with
  | nil => intro bs; exact Or.inl (by simp [strsLEb])
  | cons a as ih =>
    intro bs
    cases bs with
    | nil => exact Or.inr (by simp [strsLEb])
    | cons b bs' =>
      rcases strLTb_trichot a b with hab | hab | hab
      · exact Or.inl (by simp [strsLEb, hab])
      · subst hab
        rcases ih bs' with h | h
        · exact Or.inl (by simp [strsLEb, h])
        · exact Or.inr (by simp [strsLEb, h])
      · exact Or.inr (by simp [strsLEb, hab])

instance rowsLE.isTrans (key : AggRow → List String) : IsTrans AggRow (rowsLE key) :=
  ⟨fun _ _ _ h1 h2 => strsLEb_trans _ _ _ h1 h2⟩

instance rowsLE.isTotal (key : AggRow → List String) : IsTotal AggRow (rowsLE key) :=
  ⟨fun a b => strsLEb_total (key a) (key b)⟩

/-! ## Properties of first-occurrence deduplication -/

theorem mem_dedupFirstAux {K : Type} [DecidableEq K] (l : List K) : ∀ (seen : List K)
    (k : K), k ∈ dedupFirstAux seen l ↔ k ∈ l ∧ k ∉ seen := by
  induction l with
  | nil => intro seen k; simp [dedupFirstAux]
  | cons hd tl ih =>
    intro seen k
    by_cases hmem : hd ∈ seen
    · rw [dedupFirstAux, if_pos hmem, ih]
      constructor
      · rintro ⟨htl, hns⟩; exact ⟨List.mem_cons_of_mem _ htl, hns⟩
      · rintro ⟨hor, hns⟩
        rcases List.mem_cons.mp hor with rfl | htl
        · exact absurd hmem hns
        · exact ⟨htl, hns⟩
    · rw [dedupFirstAux, if_neg hmem]
      constructor
      · intro h
        rcases List.mem_cons.mp h with rfl | h
        · exact ⟨List.mem_cons_self _ _, hmem⟩
        · rcases (ih _ _).mp h with ⟨htl, hns⟩
          exact ⟨List.mem_cons_of_mem _ htl,
            fun hk => hns (List.mem_cons_of_mem _ hk)⟩
      · rintro ⟨hor, hns⟩
        rcases List.mem_cons.mp hor with rfl | htl
        · exact List.mem_cons_self _ _
        · by_cases hk : k = hd
          · subst hk; exact List.mem_cons_self _ _
          · refine List.mem_cons_of_mem _ ((ih _ _).mpr ⟨htl, ?hn⟩)
            intro hc
            rcases List.mem_cons.mp hc with h | h
            · exact hk h
            · exact hns h

theorem nodup_dedupFirstAux {K : Type} [DecidableEq K] (l : List K) :
    ∀ seen : List K, (dedupFirstAux seen l).Nodup := by
  induction l with
  | nil => intro seen; simp [dedupFirstAux]
  | cons hd tl ih =>
    intro seen
    by_cases hmem : hd ∈ seen
    · rw [dedupFirstAux, if_pos hmem]; exact ih seen
    · rw [dedupFirstAux, if_neg hmem]
      refine List.Nodup.cons ?hd (ih (hd :: seen))
      intro hc
      exact ((mem_dedupFirstAux tl _ _).mp hc).2 (List.mem_cons_self _ _)

theorem dedupFirst_nodup {K : Type} [DecidableEq K] (l : List K) :
    (dedupFirst l).Nodup :=
  nodup_dedupFirstAux l []

theorem mem_dedupFirst {K : Type} [DecidableEq K] {l : List K} {k : K} :
    k ∈ dedupFirst l ↔ k ∈ l := by
  rw [dedupFirst, mem_dedupFirstAux]
  simp

/-! ## Small helper lemmas -/

theorem targetRow_iff {r : AggRow} :
    targetRow r = true ↔ r.method = "Service" ∧ r.analytic = "2 Rod" := by
  simp [targetRow]

theorem strToTitlecase_jadelle : strToTitlecase "Jadelle" = "Jadelle" := by decide

theorem strToTitlecase_levoplant : strToTitlecase "Levoplant" = "Levoplant" := by decide

theorem lookup_eq_none_of_forall {β : Type} (l : List (String × β)) (a : String)
    (h : ∀ b, (a, b) ∉ l) : l.lookup a = none := by
  induction l with
  | nil => rfl
  | cons p t ih =>
    obtain ⟨k, v⟩ := p
    by_cases hak : a = k
    · subst hak
      exact absurd (List.mem_cons_self _ _) (h v)
    · rw [List.lookup, show (a == k) = false by simpa using hak]
      exact ih fun b hb => h b (List.mem_cons_of_mem _ hb)

theorem filter_key_eq_singleton {α K : Type} [DecidableEq K] (key : α → K) :
    ∀ (l : List α) (a : α), a ∈ l → (l.map key).Nodup →
      l.filter (fun x => decide (key x = key a)) = [a] := by
  intro l
  induction l with
  | nil => intro a ha; exact absurd ha (List.not_mem_nil a)
  | cons hd tl ih =>
    intro a ha hnd
    rw [List.map_cons, List.nodup_cons] at hnd
    rcases List.mem_cons.mp ha with rfl | ha'
    · rw [List.filter_cons_of_pos (by simp)]
      have : tl.filter (fun x => decide (key x = key a)) = [] := by
        apply List.filter_eq_nil_iff.mpr
        intro x hx hc
        exact hnd.1 (List.mem_map.mpr ⟨x, hx, (decide_eq_true_eq).mp hc⟩)
      rw [this]
    · have hne : key hd ≠ key a := by
        intro he
        exact hnd.1 (he ▸ List.mem_map.mpr ⟨a, ha', rfl⟩)
      rw [List.filter_cons_of_neg (by simpa using hne)]
      exact ih a ha' hnd.2

theorem charsIsPrefixb_append (pat r : List Char) :
    charsIsPrefixb pat (pat ++ r) = true := by
  induction pat with
  | nil => simp [charsIsPrefixb]
  | cons c cs ih => simp [charsIsPrefixb, ih]

theorem charsContainsb_append_left (pat rest : List Char) (l : List Char)
    (h : charsContainsb pat rest = true) :
    charsContainsb pat (l ++ rest) = true := by
  induction l with
  | nil => simpa using h
  | cons c cs ih =>
    rw [List.cons_append, charsContainsb, Bool.or_eq_true]
    exact Or.inr ih

theorem charsContainsb_self_append (pat r : List Char) :
    charsContainsb pat (pat ++ r) = true := by
  cases h : pat ++ r with
  | nil => rw [List.append_eq_nil] at h; simp [h.1, h.2, charsContainsb, charsIsPrefixb]
  | cons c cs =>
    rw [charsContainsb, ← h, Bool.or_eq_true]
    exact Or.inl (charsIsPrefixb_append pat r)

theorem containsSub_failureMessage (e : String) :
    containsSub (failureMessage e) e = true := by
  rw [containsSub, failureMessage, String.data_append, String.data_append]
  rw [List.append_assoc]
  exact charsContainsb_append_left _ _ _ (charsContainsb_self_append _ _)

/-! ## Structure of the two aggregations -/

theorem countyAggregate_map_keyQuad (rows : List ProcessedRow) :
    (countyAggregate rows).map keyQuad = dedupFirst (rows.map countyKey) := by
  rw [countyAggregate, List.map_map]
  conv_rhs => rw [← List.map_id (dedupFirst (rows.map countyKey))]
  apply List.map_congr_left
  intro k _
  obtain ⟨a, b, c, d⟩ := k
  rfl

theorem generateNationalAggregates_map_natKey (county_df : List AggRow) :
    (generateNationalAggregates county_df).map natKey
      = dedupFirst (county_df.map natKey) := by
  rw [generateNationalAggregates, List.map_map]
  conv_rhs => rw [← List.map_id (dedupFirst (county_df.map natKey))]
  apply List.map_congr_left
  intro k _
  obtain ⟨a, b, c⟩ := k
  rfl

theorem keyQuad_nodup_applyTransformations (raw_fp : List RawRow)
    (org_units : List OrgRow) (elements : List ElemRow) :
    ((applyTransformations raw_fp org_units elements).map keyQuad).Nodup := by
  rw [applyTransformations]
  have h2 : ((countyAggregate (processedRows raw_fp org_units elements)).map keyQuad).Nodup := by
    rw [countyAggregate_map_keyQuad]
    exact dedupFirst_nodup _
  exact ((List.perm_insertionSort (rowsLE key4) _).map keyQuad).nodup_iff.mpr h2

theorem natKey_nodup_generateNationalAggregates (county_df : List AggRow) :
    ((generateNationalAggregates county_df).map natKey).Nodup := by
  rw [generateNationalAggregates_map_natKey]
  exact dedupFirst_nodup _

theorem org_unit_of_mem_generateNationalAggregates {county_df : List AggRow}
    {r : AggRow} (hr : r ∈ generateNationalAggregates county_df) :
    r.org_unit = "Kenya" := by
  rw [generateNationalAggregates] at hr
  rcases List.mem_map.mp hr with ⟨k, _, rfl⟩
  rfl

theorem county_name_of_mem_joinData {raw_fp : List RawRow} {org_units : List OrgRow}
    {elements : List ElemRow} {j : JoinedRow}
    (hj : j ∈ joinData raw_fp org_units elements) :
    ∃ o ∈ org_units, j.county_name = o.county_name := by
  rw [joinData] at hj
  rcases List.mem_flatMap.mp hj with ⟨r, _, hj2⟩
  rcases List.mem_flatMap.mp hj2 with ⟨o, ho, hj3⟩
  rcases List.mem_map.mp hj3 with ⟨e, _, rfl⟩
  exact ⟨o, (List.mem_filter.mp ho).1, rfl⟩

theorem org_unit_of_mem_applyTransformations {raw_fp : List RawRow}
    {org_units : List OrgRow} {elements : List ElemRow} {r : AggRow}
    (hr : r ∈ applyTransformations raw_fp org_units elements) :
    ∃ o ∈ org_units, r.org_unit = o.county_name := by
  rw [applyTransformations] at hr
  have hr2 : r ∈ countyAggregate (processedRows raw_fp org_units elements) :=
    (List.perm_insertionSort _ _).mem_iff.mp hr
  rw [countyAggregate] at hr2
  rcases List.mem_map.mp hr2 with ⟨k, hk, rfl⟩
  have hk2 : k ∈ (processedRows raw_fp org_units elements).map countyKey :=
    mem_dedupFirst.mp hk
  rcases List.mem_map.mp hk2 with ⟨p, hp, rfl⟩
  rw [processedRows] at hp
  rcases List.mem_map.mp hp with ⟨j, hj, rfl⟩
  rcases county_name_of_mem_joinData hj with ⟨o, ho, heq⟩
  exact ⟨o, ho, heq⟩

/-! ## Distinctness of the (geography, period) pairs of target rows -/

theorem pairKey_nodup_of_keyQuad {l : List AggRow}
    (hall : ∀ x ∈ l, targetRow x = true)
    (hpw : List.Pairwise (fun a b => keyQuad a ≠ keyQuad b) l) :
    (l.map pairKey).Nodup := by
  induction l with
  | nil => simp
  | cons hd tl ih =>
    rw [List.map_cons, List.nodup_cons]
    rcases List.pairwise_cons.mp hpw with ⟨hhd, htl⟩
    refine ⟨?notmem, ih (fun x hx => hall x (List.mem_cons_of_mem _ hx)) htl⟩
    intro hc
    rcases List.mem_map.mp hc with ⟨b, hb, heq⟩
    have h1 := targetRow_iff.mp (hall hd (List.mem_cons_self _ _))
    have h2 := targetRow_iff.mp (hall b (List.mem_cons_of_mem _ hb))
    rw [pairKey, pairKey, Prod.mk.injEq] at heq
    exact hhd b hb (by rw [keyQuad, keyQuad, h1.1, h1.2, h2.1, h2.2, heq.1, heq.2])

theorem pairKey_nodup_of_natKey {l : List AggRow}
    (hall : ∀ x ∈ l, targetRow x = true)
    (hpw : List.Pairwise (fun a b => natKey a ≠ natKey b) l) :
    (l.map pairKey).Nodup := by
  induction l with
  | nil => simp
  | cons hd tl ih =>
    rw [List.map_cons, List.nodup_cons]
    rcases List.pairwise_cons.mp hpw with ⟨hhd, htl⟩
    refine ⟨?notmem, ih (fun x hx => hall x (List.mem_cons_of_mem _ hx)) htl⟩
    intro hc
    rcases List.mem_map.mp hc with ⟨b, hb, heq⟩
    have h1 := targetRow_iff.mp (hall hd (List.mem_cons_self _ _))
    have h2 := targetRow_iff.mp (hall b (List.mem_cons_of_mem _ hb))
    rw [pairKey, pairKey, Prod.mk.injEq] at heq
    exact hhd b hb (by rw [natKey, natKey, h1.1, h1.2, h2.1, h2.2, heq.2])

/-! ## Structure of the two-rod split -/

theorem pivotKey_nodup_of_pairKey {l : List AggRow}
    (h : (l.map pairKey).Nodup) : (l.map pivotKey).Nodup := by
  have hp : List.Pairwise (fun a b => pairKey a ≠ pairKey b) l := List.pairwise_map.mp h
  refine List.pairwise_map.mpr (hp.imp ?imp)
  intro a b hne hc
  apply hne
  rw [pivotKey, pivotKey, Prod.mk.injEq, Prod.mk.injEq] at hc
  rw [pairKey, pairKey, Prod.mk.injEq]
  exact ⟨hc.1, hc.2.2⟩

theorem processTwoRodSplit_eq_some {df : List AggRow} (ratio : ℚ)
    (hne : df.filter targetRow ≠ [])
    (hnodup : ((df.filter targetRow).map pairKey).Nodup) :
    processTwoRodSplit df ratio
      = some ((df.filter fun r => !(targetRow r))
          ++ splitDerived
              ((List.insertionSort (rowsLE key3) (df.filter targetRow)).map
                fun r => ⟨r.org_unit, r.method, r.period, r.value⟩) ratio) := by
  have hE : (df.filter targetRow).isEmpty = false := by
    rw [List.isEmpty_eq_false]
    exact hne
  have hsortperm := List.perm_insertionSort (rowsLE key3) (df.filter targetRow)
  have hsnodup :
      ((List.insertionSort (rowsLE key3) (df.filter targetRow)).map pairKey).Nodup :=
    ((hsortperm.map pairKey).nodup_iff).mpr hnodup
  have hpiv :
      ((List.insertionSort (rowsLE key3) (df.filter targetRow)).map pivotKey).Nodup :=
    pivotKey_nodup_of_pairKey hsnodup
  rw [processTwoRodSplit]
  simp only [hE, Bool.false_eq_true, if_false]
  rw [pivot2Rod, if_pos hpiv]

theorem filter_decide_map {α β K : Type} [DecidableEq K] (f : α → β)
    (kf : β → K) (kg : α → K) (hk : ∀ x, kf (f x) = kg x) (k : K) (s : List α) :
    ((s.map f).filter fun y => decide (kf y = k))
      = (s.filter fun x => decide (kg x = k)).map f := by
  induction s with
  | nil => rfl
  | cons hd tl ih =>
    rw [List.map_cons, List.filter_cons, List.filter_cons]
    by_cases h : kg hd = k
    · rw [if_pos (by simp [hk hd, h]), if_pos (by simp [h]), List.map_cons, ih]
    · rw [if_neg (by simp [hk hd, h]), if_neg (by simp [h]), ih]

theorem splitDerived_filter (s : List AggRow) (ratio : ℚ) (r : AggRow)
    (hr : r ∈ s) (hnd : (s.map pairKey).Nodup) :
    (splitDerived (s.map fun x => ⟨x.org_unit, x.method, x.period, x.value⟩) ratio).filter
        (fun x => decide (pairKey x = pairKey r))
      = [⟨"Jadelle", r.method, r.org_unit, r.period, r.value * ratio⟩,
         ⟨"Levoplant", r.method, r.org_unit, r.period, r.value * (1 - ratio)⟩] := by
  rw [splitDerived, List.map_append]
  simp only [List.map_map, Function.comp_def]
  rw [List.filter_append]
  rw [filter_decide_map
      (fun x : AggRow =>
        (⟨strToTitlecase "Jadelle", x.method, x.org_unit, x.period, x.value * ratio⟩ : AggRow))
      pairKey pairKey (fun x => rfl) (pairKey r) s,
    filter_decide_map
      (fun x : AggRow =>
        (⟨strToTitlecase "Levoplant", x.method, x.org_unit, x.period,
          x.value * (1 - ratio)⟩ : AggRow))
      pairKey pairKey (fun x => rfl) (pairKey r) s]
  rw [filter_key_eq_singleton pairKey s r hr hnd]
  simp [strToTitlecase_jadelle, strToTitlecase_levoplant]

theorem joinData_drop (raw_fp : List RawRow) (org_units : List OrgRow)
    (elements : List ElemRow) :
    joinData raw_fp org_units elements
      = joinData (raw_fp.filter fun r =>
          (org_units.any fun o => decide (o.org_unit = r.org_unit))
          && elements.any fun e => decide (e.analytic_id = r.analytic_id))
          org_units elements := by
  rw [joinData, joinData]
  induction raw_fp with
  | nil => rfl
  | cons hd tl ih =>
    rw [List.flatMap_cons, List.filter_cons]
    by_cases h : ((org_units.any fun o => decide (o.org_unit = hd.org_unit))
        && elements.any fun e => decide (e.analytic_id = hd.analytic_id)) = true
    · rw [if_pos h, List.flatMap_cons, ih]
    · rw [if_neg h]
      have hnil : (org_units.filter fun o => decide (o.org_unit = hd.org_unit)).flatMap
          (fun o => (elements.filter fun e => decide (e.analytic_id = hd.analytic_id)).map
            fun e => (⟨hd.analytic_id, hd.period, hd.value, o.county_name,
              e.analytic_name⟩ : JoinedRow)) = [] := by
        rw [Bool.and_eq_true, not_and_or] at h
        rcases h with h1 | h1
        · rw [List.filter_eq_nil_iff.mpr fun o ho hp =>
            h1 (List.any_eq_true.mpr ⟨o, ho, hp⟩)]
          rfl
        · rw [List.filter_eq_nil_iff.mpr fun e he hp =>
            h1 (List.any_eq_true.mpr ⟨e, he, hp⟩)]
          simp
      rw [hnil, List.nil_append, ih]

/-! ## Claims -/

/-- C7: catalog resolution of an `analytic_id` to a product name is total and
never raises: every id in `ANALYTIC_ID_MAP` resolves to its catalog name,
which is never the sentinel "Unknown Product", and every id absent from the
catalog resolves to "Unknown Product". -/
theorem catalog_resolution_total :
    (∀ i n, (i, n) ∈ ANALYTIC_ID_MAP →
      replaceStrictProduct i = n ∧ n ≠ "Unknown Product")
    ∧ ∀ i, (∀ n, (i, n) ∉ ANALYTIC_ID_MAP) →
        replaceStrictProduct i = "Unknown Product" := by
  constructor
  · intro i n h
    fin_cases h <;> exact ⟨by decide, by decide⟩
  · intro i h
    rw [replaceStrictProduct, lookup_eq_none_of_forall _ _ h]
    rfl

/-- Witness for C7: the catalog id of "2 Rod" resolves to "2 Rod", and an id
absent from the catalog resolves to the sentinel. -/
theorem catalog_resolution_total_witness :
    replaceStrictProduct "TUHzoPGLM3t" = "2 Rod"
    ∧ replaceStrictProduct "notAnAnalyticId" = "Unknown Product" :=
  ⟨(catalog_resolution_total.1 "TUHzoPGLM3t" "2 Rod" (by decide)).1,
   catalog_resolution_total.2 "notAnAnalyticId" fun n hn =>
     absurd (List.mem_map_of_mem Prod.fst hn)
       (show "notAnAnalyticId" ∉ ANALYTIC_ID_MAP.map Prod.fst by decide)⟩

/-- C4: the Transformer assigns method "Service" when the original
`analytic_name` contains "711", else "Consumption" when it contains "747",
else "Unknown Method"; the classification reads only `analytic_name` (two
joined rows with the same `analytic_name` always receive the same method,
whatever their resolved short names are). -/
theorem method_classification (raw_fp : List RawRow) (org_units : List OrgRow)
    (elements : List ElemRow) :
    (∀ p ∈ processedRows raw_fp org_units elements,
      p.method = if containsSub p.analytic_name "711" then "Service"
        else if containsSub p.analytic_name "747" then "Consumption"
        else "Unknown Method")
    ∧ ∀ j₁ j₂ : JoinedRow, j₁.analytic_name = j₂.analytic_name →
        (processRow j₁).method = (processRow j₂).method := by
  constructor
  · intro p hp
    rw [processedRows] at hp
    rcases List.mem_map.mp hp with ⟨j, _, rfl⟩
    rfl
  · intro j₁ j₂ h
    show methodOf j₁.analytic_name = methodOf j₂.analytic_name
    rw [h]

/-- Witness for C4: a joined record whose name contains "747" is classified
by the if-chain on its `analytic_name`. -/
theorem method_classification_witness :
    (⟨"X9", "2024-01", 7, "Nairobi", "Family Planning 747 Item", "Unknown Product",
      "Consumption"⟩ : ProcessedRow).method
      = if containsSub "Family Planning 747 Item" "711" then "Service"
        else if containsSub "Family Planning 747 Item" "747" then "Consumption"
        else "Unknown Method" :=
  (method_classification [⟨"X9", "F1", "2024-01", 7⟩] [⟨"F1", "Nairobi"⟩]
    [⟨"X9", "Family Planning 747 Item"⟩]).1 _ (by decide)

/-- C5: the value multiplier is applied exactly to rows classified Service —
their value is multiplied by the `SERVICE_ADJUSTMENTS` entry of the resolved
product name, 1 by default — and non-Service rows keep their value. -/
theorem service_value_adjustment (j : JoinedRow) :
    ((processRow j).method = "Service" →
      (processRow j).value = j.value * serviceAdjustment (processRow j).analytic_short_name)
    ∧ ((processRow j).method ≠ "Service" → (processRow j).value = j.value)
    ∧ ∀ n, (∀ q, (n, q) ∉ SERVICE_ADJUSTMENTS) → serviceAdjustment n = 1 := by
  refine ⟨?pos, ?neg, ?dflt⟩
  · intro h
    simp only [processRow] at h ⊢
    rw [if_pos h]
  · intro h
    simp only [processRow] at h ⊢
    rw [if_neg h]
  · intro n hn
    rw [serviceAdjustment, lookup_eq_none_of_forall _ _ hn]
    rfl

/-- Witness for C5: a Service COCs row gets the catalog multiplier, a
Consumption row keeps its value, and "2 Rod" (absent from the catalog) has
multiplier 1. -/
theorem service_value_adjustment_witness :
    ((processRow ⟨"BQmcVE8fex4", "2024-01", 100, "Nairobi", "Item 711"⟩).value
      = (100 : ℚ) * serviceAdjustment
          (processRow ⟨"BQmcVE8fex4", "2024-01", 100, "Nairobi", "Item 711"⟩).analytic_short_name)
    ∧ (processRow ⟨"X1", "2024-01", 55, "Kisumu", "Item 747"⟩).value = 55
    ∧ serviceAdjustment "2 Rod" = 1 :=
  ⟨(service_value_adjustment _).1 (by decide),
   (service_value_adjustment _).2.1 (by decide),
   (service_value_adjustment ⟨"x", "p", 0, "c", "n"⟩).2.2 "2 Rod"
     fun q hq => absurd (List.mem_map_of_mem Prod.fst hq)
       (show "2 Rod" ∉ SERVICE_ADJUSTMENTS.map Prod.fst by decide)⟩

/-- C3: the national aggregator produces exactly one row per (product,
method, period) key of the county aggregate — its key set is duplicate-free
and coincides with the county key set — each row being tagged "Kenya" and
carrying the sum of the regional values for its key; the column set and
order equal the county aggregate's. -/
theorem national_aggregation (county_df : List AggRow) :
    ((generateNationalAggregates county_df).map natKey).Nodup
    ∧ (∀ k, k ∈ (generateNationalAggregates county_df).map natKey
        ↔ k ∈ county_df.map natKey)
    ∧ (∀ r ∈ generateNationalAggregates county_df,
        r.org_unit = "Kenya"
        ∧ r.value = ((county_df.filter fun c => decide (natKey c = natKey r)).map
            fun c => c.value).sum)
    ∧ nationalColumns = countyColumns := by
  refine ⟨natKey_nodup_generateNationalAggregates county_df, ?mem, ?rows, rfl⟩
  · intro k
    rw [generateNationalAggregates_map_natKey, mem_dedupFirst]
  · intro r hr
    rw [generateNationalAggregates] at hr
    rcases List.mem_map.mp hr with ⟨k, _, rfl⟩
    obtain ⟨a, b, c⟩ := k
    exact ⟨rfl, rfl⟩

/-- Witness for C3: with two regions reporting the same key, the national
key set is exactly the county key set. -/
theorem national_aggregation_witness :
    ("POPs", "Service", "2024-01") ∈ (generateNationalAggregates
        [⟨"POPs", "Service", "Nairobi", "2024-01", 10⟩,
         ⟨"POPs", "Service", "Mombasa", "2024-01", 20⟩]).map natKey :=
  ((national_aggregation _).2.1 _).mpr (by decide)

/-- C6: after the Transformer's final aggregation the grouping keys
(product, method, geography, period) are pairwise distinct, and the output
is sorted ascending by those columns. -/
theorem county_unique_sorted (raw_fp : List RawRow) (org_units : List OrgRow)
    (elements : List ElemRow) :
    List.Pairwise (fun a b => keyQuad a ≠ keyQuad b)
      (applyTransformations raw_fp org_units elements)
    ∧ List.Sorted (rowsLE key4) (applyTransformations raw_fp org_units elements) := by
  constructor
  · exact List.pairwise_map.mp (keyQuad_nodup_applyTransformations raw_fp org_units elements)
  · rw [applyTransformations]
    exact List.sorted_insertionSort _ _

/-- C8: an observation whose facility or analytic code has no match in the
reference mappings contributes nothing to the Transformer output (the output
equals the output on the matched observations alone), and when no
observation matches at all the Transformer returns the empty aggregate
rather than raising. -/
theorem inner_join_drop (raw_fp : List RawRow) (org_units : List OrgRow)
    (elements : List ElemRow) :
    applyTransformations raw_fp org_units elements
      = applyTransformations (raw_fp.filter fun r =>
          (org_units.any fun o => decide (o.org_unit = r.org_unit))
          && elements.any fun e => decide (e.analytic_id = r.analytic_id))
          org_units elements
    ∧ ((∀ r ∈ raw_fp,
          (∀ o ∈ org_units, o.org_unit ≠ r.org_unit)
          ∨ ∀ e ∈ elements, e.analytic_id ≠ r.analytic_id) →
        applyTransformations raw_fp org_units elements = []) := by
  constructor
  · rw [applyTransformations, applyTransformations, processedRows, processedRows,
      joinData_drop]
  · intro h
    have hfil : raw_fp.filter (fun r =>
        (org_units.any fun o => decide (o.org_unit = r.org_unit))
        && elements.any fun e => decide (e.analytic_id = r.analytic_id)) = [] := by
      apply List.filter_eq_nil_iff.mpr
      intro r hr hc
      rw [Bool.and_eq_true] at hc
      rcases h r hr with h1 | h1
      · rcases List.any_eq_true.mp hc.1 with ⟨o, ho, hp⟩
        exact h1 o ho (of_decide_eq_true hp)
      · rcases List.any_eq_true.mp hc.2 with ⟨e, he, hp⟩
        exact h1 e he (of_decide_eq_true hp)
    rw [applyTransformations, processedRows, joinData_drop, hfil]
    rfl

/-- Witness for C8: one observation whose facility "FX" is absent from the
organisation mapping yields the empty aggregate. -/
theorem inner_join_drop_witness :
    applyTransformations [⟨"A1", "FX", "2024-01", 7⟩] [⟨"F1", "Nairobi"⟩]
      [⟨"A1", "Item 711"⟩] = [] :=
  (inner_join_drop _ _ _).2 (by decide)

/-- C1 (amended): provided the rows selected by (method = Service, product =
"2 Rod") have pairwise-distinct (geography, period) keys — the structural
precondition of the pivot — every selected row of value V is replaced by
exactly two derived rows for its (geography, period), Jadelle = V * (4/5)
and Levoplant = V * (1 - 4/5), and their exact rational sum is V. -/
theorem two_rod_split_mass (df : List AggRow) (r : AggRow)
    (hnodup : ((df.filter targetRow).map pairKey).Nodup)
    (hr : r ∈ df) (hm : r.method = "Service") (ha : r.analytic = "2 Rod") :
    ∃ derived, processTwoRodSplit df (4/5)
        = some ((df.filter fun x => !(targetRow x)) ++ derived)
      ∧ derived.filter (fun x => decide (pairKey x = pairKey r))
          = [⟨"Jadelle", "Service", r.org_unit, r.period, r.value * (4/5)⟩,
             ⟨"Levoplant", "Service", r.org_unit, r.period, r.value * (1 - 4/5)⟩]
      ∧ r.value * (4/5) + r.value * (1 - 4/5) = r.value := by
  have htr : targetRow r = true := targetRow_iff.mpr ⟨hm, ha⟩
  have hrm : r ∈ df.filter targetRow := List.mem_filter.mpr ⟨hr, htr⟩
  refine ⟨_, processTwoRodSplit_eq_some (4/5) (List.ne_nil_of_mem hrm) hnodup,
    ?filt, by ring⟩
  have hsperm := List.perm_insertionSort (rowsLE key3) (df.filter targetRow)
  have hrs : r ∈ List.insertionSort (rowsLE key3) (df.filter targetRow) :=
    hsperm.mem_iff.mpr hrm
  have hsnd : ((List.insertionSort (rowsLE key3) (df.filter targetRow)).map pairKey).Nodup :=
    (hsperm.map pairKey).nodup_iff.mpr hnodup
  rw [splitDerived_filter _ _ _ hrs hsnd, hm]

/-- Witness for C1: a single Service "2 Rod" row of value 100 in Nairobi
splits into Jadelle 100 * (4/5) and Levoplant 100 * (1 - 4/5). -/
theorem two_rod_split_mass_witness :
    ∃ derived, processTwoRodSplit [⟨"2 Rod", "Service", "Nairobi", "2024-01", 100⟩] (4/5)
        = some (([⟨"2 Rod", "Service", "Nairobi", "2024-01", 100⟩].filter
            fun x => !(targetRow x)) ++ derived)
      ∧ derived.filter (fun x =>
          decide (pairKey x = pairKey ⟨"2 Rod", "Service", "Nairobi", "2024-01", 100⟩))
          = [⟨"Jadelle", "Service", "Nairobi", "2024-01", (100 : ℚ) * (4/5)⟩,
             ⟨"Levoplant", "Service", "Nairobi", "2024-01", (100 : ℚ) * (1 - 4/5)⟩]
      ∧ (100 : ℚ) * (4/5) + 100 * (1 - 4/5) = 100 :=
  two_rod_split_mass _ _ (by decide) (by decide) rfl rfl

/-- Counterexample for C1 as stated: two Service "2 Rod" rows share the
(geography, period) key ("Kenya", "2024-01") — reachable when a county
carries the national label — the pivot hits a duplicate group and raises,
so the redistribution produces no output frame and no row is replaced by
two derived rows. -/
theorem two_rod_split_mass_cex :
    processTwoRodSplit
        [⟨"2 Rod", "Service", "Kenya", "2024-01", 100⟩,
         ⟨"2 Rod", "Service", "Kenya", "2024-01", 40⟩] (4/5) = none
    ∧ ∀ out, processTwoRodSplit
        [⟨"2 Rod", "Service", "Kenya", "2024-01", 100⟩,
         ⟨"2 Rod", "Service", "Kenya", "2024-01", 40⟩] (4/5) ≠ some out := by
  refine ⟨by decide, fun out h => ?x⟩
  rw [show processTwoRodSplit
      [⟨"2 Rod", "Service", "Kenya", "2024-01", 100⟩,
       ⟨"2 Rod", "Service", "Kenya", "2024-01", 40⟩] (4/5) = none by decide] at h
  exact Option.noConfusion h

/-- C2 (amended): provided the selected rows have pairwise-distinct
(geography, period) keys: when no row matches the selection predicate the
input is returned unchanged; otherwise the output is the unmatched rows —
each passed through unchanged exactly once, in order — followed by the
derived block, which holds exactly two derived rows per matched row (the
matched row's Jadelle row and its Levoplant row). -/
theorem split_frame_effect (df : List AggRow) (ratio : ℚ)
    (hnodup : ((df.filter targetRow).map pairKey).Nodup) :
    (df.filter targetRow = [] → processTwoRodSplit df ratio = some df)
    ∧ (df.filter targetRow ≠ [] → ∃ piv,
        processTwoRodSplit df ratio
          = some ((df.filter fun x => !(targetRow x)) ++ splitDerived piv ratio)
        ∧ (splitDerived piv ratio).length = 2 * (df.filter targetRow).length
        ∧ ∀ r ∈ df.filter targetRow,
            (⟨"Jadelle", r.method, r.org_unit, r.period, r.value * ratio⟩ : AggRow)
              ∈ splitDerived piv ratio
            ∧ (⟨"Levoplant", r.method, r.org_unit, r.period, r.value * (1 - ratio)⟩ : AggRow)
              ∈ splitDerived piv ratio) := by
  constructor
  · intro h
    simp [processTwoRodSplit, h]
  · intro hne
    refine ⟨(List.insertionSort (rowsLE key3) (df.filter targetRow)).map
        (fun r => ⟨r.org_unit, r.method, r.period, r.value⟩),
      processTwoRodSplit_eq_some ratio hne hnodup, ?len, ?mem⟩
    · have hplen : (List.insertionSort (rowsLE key3) (df.filter targetRow)).length
          = (df.filter targetRow).length :=
        (List.perm_insertionSort _ _).length_eq
      simp [splitDerived, hplen, two_mul]
    · intro r hrm
      have hrs : r ∈ List.insertionSort (rowsLE key3) (df.filter targetRow) :=
        (List.perm_insertionSort _ _).mem_iff.mpr hrm
      constructor
      · rw [splitDerived]
        refine List.mem_map.mpr
          ⟨⟨"Jadelle", r.method, r.org_unit, r.period, r.value * ratio⟩,
            ?m1, by simp [strToTitlecase_jadelle]⟩
        refine List.mem_append_left _ (List.mem_map.mpr
          ⟨⟨r.org_unit, r.method, r.period, r.value⟩, ?mm1, rfl⟩)
        exact List.mem_map.mpr ⟨r, hrs, rfl⟩
      · rw [splitDerived]
        refine List.mem_map.mpr
          ⟨⟨"Levoplant", r.method, r.org_unit, r.period, r.value * (1 - ratio)⟩,
            ?m2, by simp [strToTitlecase_levoplant]⟩
        refine List.mem_append_right _ (List.mem_map.mpr
          ⟨⟨r.org_unit, r.method, r.period, r.value⟩, ?mm2, rfl⟩)
        exact List.mem_map.mpr ⟨r, hrs, rfl⟩

/-- Witness for C2: a frame with no Service "2 Rod" row passes through the
split unchanged. -/
theorem split_frame_effect_witness :
    processTwoRodSplit [⟨"Levoplant", "Consumption", "Nairobi", "2024-01", 3⟩] (4/5)
      = some [⟨"Levoplant", "Consumption", "Nairobi", "2024-01", 3⟩] :=
  (split_frame_effect _ (4/5) (by decide)).1 (by decide)

/-- Counterexample for C2 as stated: with two matched rows on the same
(geography, period) key, the pivot raises, the function returns no frame,
and in particular neither unmatched pass-through nor two-derived-rows-per-
matched-row holds. -/
theorem split_frame_effect_cex :
    processTwoRodSplit
        [⟨"2 Rod", "Service", "Mombasa", "2024-02", 10⟩,
         ⟨"2 Rod", "Service", "Mombasa", "2024-02", 20⟩] (4/5) = none
    ∧ ∀ out, processTwoRodSplit
        [⟨"2 Rod", "Service", "Mombasa", "2024-02", 10⟩,
         ⟨"2 Rod", "Service", "Mombasa", "2024-02", 20⟩] (4/5) ≠ some out := by
  refine ⟨by decide, fun out h => ?x⟩
  rw [show processTwoRodSplit
      [⟨"2 Rod", "Service", "Mombasa", "2024-02", 10⟩,
       ⟨"2 Rod", "Service", "Mombasa", "2024-02", 20⟩] (4/5) = none by decide] at h
  exact Option.noConfusion h

/-- C10 (amended): for every merged aggregate produced by the pipeline's own
county and national aggregations, provided no region name in the
organisation mapping equals the national label "Kenya", the rows selected by
(method = Service, product = "2 Rod") have pairwise-distinct (geography,
period) keys — the uniqueness assumption of the redistribution pivot. -/
theorem merged_two_rod_key_uniqueness (raw_fp : List RawRow)
    (org_units : List OrgRow) (elements : List ElemRow)
    (hk : ∀ o ∈ org_units, o.county_name ≠ "Kenya") :
    (((mergedPipeline raw_fp org_units elements).filter targetRow).map pairKey).Nodup := by
  rw [mergedPipeline]
  rw [List.filter_append, List.map_append]
  have hcountyPW : List.Pairwise (fun a b => keyQuad a ≠ keyQuad b)
      (applyTransformations raw_fp org_units elements) :=
    List.pairwise_map.mp (keyQuad_nodup_applyTransformations raw_fp org_units elements)
  have hnatPW : List.Pairwise (fun a b => natKey a ≠ natKey b)
      (generateNationalAggregates (applyTransformations raw_fp org_units elements)) :=
    List.pairwise_map.mp (natKey_nodup_generateNationalAggregates _)
  refine List.Nodup.append ?left ?right ?disj
  · exact pairKey_nodup_of_keyQuad (fun x hx => (List.mem_filter.mp hx).2)
      (hcountyPW.sublist (List.filter_sublist _))
  · exact pairKey_nodup_of_natKey (fun x hx => (List.mem_filter.mp hx).2)
      (hnatPW.sublist (List.filter_sublist _))
  · intro x hx1 hx2
    rcases List.mem_map.mp hx1 with ⟨a, ha, rfl⟩
    rcases List.mem_map.mp hx2 with ⟨b, hb, hpk⟩
    have hac := List.mem_filter.mp ha
    have hbc := List.mem_filter.mp hb
    rcases org_unit_of_mem_applyTransformations hac.1 with ⟨o, ho, haorg⟩
    have hborg := org_unit_of_mem_generateNationalAggregates hbc.1
    have hba : b.org_unit = a.org_unit := congrArg Prod.fst hpk
    exact hk o ho (by rw [← haorg, ← hba, hborg])

/-- Witness for C10 (amended): one Service "2 Rod" observation in a county
named "Nairobi" yields a merged aggregate with distinct selected keys. -/
theorem merged_two_rod_key_uniqueness_witness :
    (((mergedPipeline [⟨"TUHzoPGLM3t", "F1", "2024-01", 100⟩] [⟨"F1", "Nairobi"⟩]
        [⟨"TUHzoPGLM3t", "Item 711"⟩]).filter targetRow).map pairKey).Nodup :=
  merged_two_rod_key_uniqueness _ _ _ (by decide)

/-- Counterexample for C10 as stated: when the organisation mapping names a
county "Kenya", the county-level Service "2 Rod" row and the national rollup
row collide on (geography, period) = ("Kenya", "2024-01") in the merged
aggregate, so the pivot's uniqueness assumption fails on a pipeline-reachable
input. -/
theorem merged_two_rod_key_uniqueness_cex :
    ¬ (((mergedPipeline [⟨"TUHzoPGLM3t", "F1", "2024-01", 100⟩] [⟨"F1", "Kenya"⟩]
        [⟨"TUHzoPGLM3t", "Item 711"⟩]).filter targetRow).map pairKey).Nodup := by
  decide

/-- C9: run() is a total function of its effects — no exception passes its
boundary — and every exception raised by a pipeline step yields the uniform
failure response: success is false, the message contains the exception's
message, and the caller-supplied trace id is echoed verbatim on every path;
when the failing step precedes persistence the persistence delegate is never
invoked, so no partial result is persisted. -/
theorem orchestrator_error_handling (ext : Except String ExtractedData)
    (save : List AggRow → Except String Unit) (tid : String) :
    (runPipeline ext save tid).1.trace_id = tid
    ∧ (∀ e, ext = Except.error e →
        (runPipeline ext save tid).1.success = false
        ∧ containsSub (runPipeline ext save tid).1.message e = true
        ∧ (runPipeline ext save tid).2 = false)
    ∧ (∀ data, ext = Except.ok data →
        processTwoRodSplit (mergedPipeline data.raw_fp data.org_units data.elements)
            (4/5) = none →
        (runPipeline ext save tid).1.success = false
        ∧ containsSub (runPipeline ext save tid).1.message pivotErrorMessage = true
        ∧ (runPipeline ext save tid).2 = false)
    ∧ ∀ data final e, ext = Except.ok data →
        processTwoRodSplit (mergedPipeline data.raw_fp data.org_units data.elements)
            (4/5) = some final →
        save final = Except.error e →
        (runPipeline ext save tid).1.success = false
        ∧ containsSub (runPipeline ext save tid).1.message e = true
        ∧ (runPipeline ext save tid).2 = true := by
  cases ext with
  | error e =>
    refine ⟨rfl, ?e2, ?e3, ?e4⟩
    · intro e' he'
      cases he'
      exact ⟨rfl, containsSub_failureMessage _, rfl⟩
    · intro data hd
      exact Except.noConfusion hd
    · intro data final e' hd
      exact Except.noConfusion hd
  | ok data =>
    cases hsp : processTwoRodSplit
        (mergedPipeline data.raw_fp data.org_units data.elements) (4/5) with
    | none =>
      have hsp' : processTwoRodSplit
          (applyTransformations data.raw_fp data.org_units data.elements
            ++ generateNationalAggregates
              (applyTransformations data.raw_fp data.org_units data.elements))
          (4/5) = none := hsp
      have hrun : runPipeline (Except.ok data) save tid
          = (⟨false, failureMessage pivotErrorMessage, none, tid⟩, false) := by
        simp only [runPipeline, hsp']
      refine ⟨by rw [hrun], ?n2, ?n3, ?n4⟩
      · intro e' he'
        exact Except.noConfusion he'
      · intro data' hd hs
        cases hd
        rw [hrun]
        exact ⟨rfl, containsSub_failureMessage _, rfl⟩
      · intro data' final' e' hd hs hv
        cases hd
        rw [hsp] at hs
        exact Option.noConfusion hs
    | some final =>
      have hsp' : processTwoRodSplit
          (applyTransformations data.raw_fp data.org_units data.elements
            ++ generateNationalAggregates
              (applyTransformations data.raw_fp data.org_units data.elements))
          (4/5) = some final := hsp
      cases hsv : save final with
      | error e =>
        have hrun : runPipeline (Except.ok data) save tid
            = (⟨false, failureMessage e, none, tid⟩, true) := by
          simp only [runPipeline, hsp', hsv]
        refine ⟨by rw [hrun], ?se2, ?se3, ?se4⟩
        · intro e' he'
          exact Except.noConfusion he'
        · intro data' hd hs
          cases hd
          rw [hsp] at hs
          exact Option.noConfusion hs
        · intro data' final' e' hd hs hv
          cases hd
          rw [hsp] at hs
          cases hs
          rw [hsv] at hv
          cases hv
          rw [hrun]
          exact ⟨rfl, containsSub_failureMessage _, rfl⟩
      | ok u =>
        have hrun : runPipeline (Except.ok data) save tid
            = (⟨true, successMessage final,
                some "Processed data saved to configured database", tid⟩, true) := by
          simp only [runPipeline, hsp', hsv]
        refine ⟨by rw [hrun], ?so2, ?so3, ?so4⟩
        · intro e' he'
          exact Except.noConfusion he'
        · intro data' hd hs
          cases hd
          rw [hsp] at hs
          exact Option.noConfusion hs
        · intro data' final' e' hd hs hv
          cases hd
          rw [hsp] at hs
          cases hs
          rw [hsv] at hv
          exact Except.noConfusion hv

/-- Witness for C9: an extraction failure "boom" produces the uniform
failure response carrying "boom" and the trace id "trace-1", without
invoking the persistence delegate. -/
theorem orchestrator_error_handling_witness :
    (runPipeline (Except.error "boom") (fun _ => Except.ok ()) "trace-1").1.trace_id
        = "trace-1"
    ∧ (runPipeline (Except.error "boom") (fun _ => Except.ok ()) "trace-1").1.success
        = false
    ∧ containsSub
        (runPipeline (Except.error "boom") (fun _ => Except.ok ()) "trace-1").1.message
        "boom" = true
    ∧ (runPipeline (Except.error "boom") (fun _ => Except.ok ()) "trace-1").2 = false := by
  have h := orchestrator_error_handling (Except.error "boom")
    (fun _ => Except.ok ()) "trace-1"
  exact ⟨h.1, (h.2.1 "boom" rfl).1, (h.2.1 "boom" rfl).2.1, (h.2.1 "boom" rfl).2.2⟩

end FP
